import Mathlib

/-!
Shallow embedding of `cargo-ghannotate` (sources: `src/github.rs`,
`src/cargo.rs`, `src/cargo/rustc.rs`, `src/cargo/rustfmt.rs`, `src/main.rs`).

Conventions:
* Rust `usize` values (line/column numbers, counters) are `Nat`; the program
  never performs arithmetic that can overflow (`+ 1` on counters only), so no
  wrap-around modelling is needed.
* Rust `Cow<str>` fields are plain `String`s (`Annotation::to_owned` is the
  identity in this model).
* Fallible code is embedded with `Except String`: the `.expect("Missing
  primary span")` panic in `Diagnostic::into_annotations` becomes
  `Except.error "Missing primary span"`, and the driver loop propagates it,
  which models the abort of the run.
* `std::env::current_dir()` (read ambiently by the rustfmt path) is threaded
  as an explicit `cwd : String` parameter.
* The `BTreeSet` of annotations is modelled as the list of elements in
  insertion order together with the `BTreeSet::insert` membership test
  (an element is already present iff some stored element compares `Equal`
  to it under `Ord`): `main.rs` only ever calls `insert` and never iterates
  the set, so its internal ordering is unobservable.
-/

namespace Ghannotate

/-- Comparison of two `Nat`s, as Rust `usize::cmp`. -/
def natCmp (a b : Nat) : Ordering :=
  if a < b then .lt else if a = b then .eq else .gt

/-- Comparison of two `Char`s by code point, as Rust byte-wise UTF-8
comparison of `str`/`OsStr` (for valid UTF-8 the two orders coincide). -/
def charCmp (a b : Char) : Ordering :=
  if a < b then .lt else if a = b then .eq else .gt

/-- Lexicographic comparison of lists, as Rust slice/iterator `cmp`. -/
def listCmp (f : α → α → Ordering) : List α → List α → Ordering
  | [], [] => .eq
  | [], _ :: _ => .lt
  | _ :: _, [] => .gt
  | a :: as_, b :: bs => (f a b).then (listCmp f as_ bs)

/-- Comparison of two `String`s, as Rust `str::cmp`. -/
def strCmp (a b : String) : Ordering :=
  listCmp charCmp a.data b.data

/-- Comparison of `Option`s, as Rust's derived `Ord` on `Option`:
`None` sorts before any `Some`. -/
def optCmp (f : α → α → Ordering) : Option α → Option α → Ordering
  | none, none => .eq
  | none, some _ => .lt
  | some _, none => .gt
  | some a, some b => f a b

/-- Modelled from the Rust standard library (`std::path`): one component of a
Unix path, as produced by `Path::components`.  `cargo-ghannotate` compares
files with `Path::new(..).cmp(Path::new(..))`, which is the lexicographic
order on the component sequences; the variant order is the derived `Ord` of
`std::path::Component` (root < current dir < parent dir < normal). -/
inductive PathComponent
  | rootDir
  | curDir
  | parentDir
  | normal (s : String)
deriving DecidableEq

/-- Rank of a path component variant, following the declaration order of
`std::path::Component` (prefixes do not occur on Unix). -/
def PathComponent.rank : PathComponent → Nat
  | .rootDir => 0
  | .curDir => 1
  | .parentDir => 2
  | .normal _ => 3

/-- Comparison of path components (derived `Ord` of `std::path::Component`). -/
def PathComponent.cmp : PathComponent → PathComponent → Ordering
  | .normal a, .normal b => strCmp a b
  | a, b => natCmp a.rank b.rank

/-- Splits a character list on `/`, keeping empty segments
(the segment structure of a Unix path string). -/
def splitSlash : List Char → List (List Char)
  | [] => [[]]
  | c :: rest =>
    match splitSlash rest with
    | [] => [[]]
    | p :: ps => if c = '/' then [] :: p :: ps else (c :: p) :: ps

/-- Classifies one non-root path segment as in `Path::components`:
empty segments and `.` segments are skipped, `..` is a parent-dir
component, anything else is a normal component. -/
def classifyPart (p : List Char) : Option PathComponent :=
  if p = [] ∨ p = ['.'] then none
  else if p = ['.', '.'] then some (.parentDir)
  else some (.normal (String.mk p))

/-- Modelled from the Rust standard library: the component sequence of a Unix
path (`Path::components`).  A leading `/` yields a root component; a leading
`.` segment of a relative path is kept as a current-dir component; all other
`.` and empty segments are dropped. -/
def pathComponents (s : String) : List PathComponent :=
  let parts := splitSlash s.data
  let root : List PathComponent :=
    if s.data.head? = some '/' then [.rootDir] else []
  let cur : List PathComponent :=
    if s.data.head? ≠ some '/' ∧ parts.head? = some ['.'] then [.curDir] else []
  root ++ cur ++ parts.filterMap classifyPart

/-- Comparison of two file paths, as `Path::new(a).cmp(Path::new(b))`. -/
def pathCmp (a b : String) : Ordering :=
  listCmp PathComponent.cmp (pathComponents a) (pathComponents b)

/-- Enum `AnnotationKind` from `github.rs`.  The derived `Ord` follows the
declaration order: `Notice < Warning < Error`. -/
inductive AnnotationKind
  | notice
  | warning
  | error
deriving DecidableEq

/-- Rank of an `AnnotationKind` in its declaration order. -/
def AnnotationKind.toNat : AnnotationKind → Nat
  | .notice => 0
  | .warning => 1
  | .error => 2

/-- Derived `Ord::cmp` of `AnnotationKind`. -/
def AnnotationKind.cmp (a b : AnnotationKind) : Ordering :=
  natCmp a.toNat b.toNat

/-- Rust `Ord::max` on `AnnotationKind` (used for `max_annotation`). -/
def AnnotationKind.max (a b : AnnotationKind) : AnnotationKind :=
  if a.toNat ≤ b.toNat then b else a

/-- The serde `rename_all = "lowercase"` serialization of `AnnotationKind`,
used for the `::<severity-token>` of the wire line. -/
def AnnotationKind.serialName : AnnotationKind → String
  | .notice => "notice"
  | .warning => "warning"
  | .error => "error"

/-- Function `AnnotationKind::emoji` from `github.rs`. -/
def AnnotationKind.emoji : AnnotationKind → String
  | .notice => ":information_source:"
  | .warning => ":warning:"
  | .error => ":x:"

/-- The `Debug` name of an `AnnotationKind` variant. -/
def AnnotationKind.debugName : AnnotationKind → String
  | .notice => "Notice"
  | .warning => "Warning"
  | .error => "Error"

/-- The `Display` form of an `AnnotationKind`: `"{emoji} {self:?}"`. -/
def AnnotationKind.displayString (k : AnnotationKind) : String :=
  k.emoji ++ " " ++ k.debugName

/-- The `Annotation` struct from `github.rs` (named `Ann` here; all `Cow`
string fields are `String`). -/
structure Ann where
  kind : AnnotationKind
  file : String
  line : Nat
  end_line : Option Nat
  col : Option Nat
  end_column : Option Nat
  title : Option String
  message : String
deriving DecidableEq

/-- Implementation of `Ord::cmp` for `Annotation` (`github.rs` lines 57-66): file as
`Path`, then `line`, then `col`, then `kind` reversed.  Note that
`end_line`, `end_column`, `title` and `message` are not compared. -/
def Ann.cmp (a b : Ann) : Ordering :=
  (((pathCmp a.file b.file).then (natCmp a.line b.line)).then
      (optCmp natCmp a.col b.col)).then
    ((AnnotationKind.cmp a.kind b.kind).swap)

/-- The projection of an annotation actually inspected by `Ann.cmp`:
file path components, line, column and kind. -/
structure AnnKey where
  comps : List PathComponent
  line : Nat
  col : Option Nat
  kind : AnnotationKind
deriving DecidableEq

/-- The comparison key of an annotation. -/
def Ann.key (a : Ann) : AnnKey :=
  ⟨pathComponents a.file, a.line, a.col, a.kind⟩

/-- Replaces every occurrence of the character `c` by the character list `r`
(Rust `str::replace` with a single-character pattern). -/
def replaceChar (c : Char) (r : List Char) : List Char → List Char
  | [] => []
  | x :: xs =>
    if x = c then r ++ replaceChar c r xs else x :: replaceChar c r xs

/-- Rust `str::trim` on a character list: leading and trailing whitespace
removed (ASCII whitespace; exotic Unicode whitespace is not modelled). -/
def trimChars (l : List Char) : List Char :=
  ((l.dropWhile Char.isWhitespace).reverse.dropWhile Char.isWhitespace).reverse

/-- The message encoding of the wire format (`github.rs` lines 84-93):
trim, then replace `%` by `%25`, then `\n` by `%0A`, then `\r` by `%0D`,
in exactly this order. -/
def encodeMessage (s : String) : String :=
  String.mk
    (replaceChar '\r' ['%', '0', 'D']
      (replaceChar '\n' ['%', '0', 'A']
        (replaceChar '%' ['%', '2', '5'] (trimChars s.data))))

/-- The single-pass character escape corresponding to the three
substitutions of the wire format. -/
def escChar (c : Char) : List Char :=
  if c = '%' then ['%', '2', '5']
  else if c = '\n' then ['%', '0', 'A']
  else if c = '\r' then ['%', '0', 'D']
  else [c]

/-- Implementation of `Display` for `Annotation` (`github.rs` lines 67-94): the one-line wire
command.  `endColumn` is only written when `col` is present; only the
message is trimmed and percent-encoded. -/
def displayAnn (a : Ann) : String :=
  "::" ++ a.kind.serialName ++ " file=" ++ a.file ++ ",line=" ++ Nat.repr a.line
    ++ (match a.end_line with
        | some e => ",endLine=" ++ Nat.repr e
        | none => "")
    ++ (match a.col with
        | some c =>
          ",col=" ++ Nat.repr c
            ++ (match a.end_column with
                | some ec => ",endColumn=" ++ Nat.repr ec
                | none => "")
        | none => "")
    ++ (match a.title with
        | some t => ",title=" ++ t
        | none => "")
    ++ "::" ++ encodeMessage a.message

/-- Enum `DiagnosticLevel` from `cargo/rustc.rs`. -/
inductive DiagnosticLevel
  | error
  | warning
  | note
  | help
  | failureNote
  | internalCompilerError
deriving DecidableEq

/-- Mapping `impl From<DiagnosticLevel> for AnnotationKind` (`github.rs` 105-116). -/
def AnnotationKind.ofLevel : DiagnosticLevel → AnnotationKind
  | .error | .internalCompilerError => .error
  | .warning => .warning
  | .note | .help | .failureNote => .notice

/-- Struct `DiagnosticSpan` from `cargo/rustc.rs`. -/
structure DiagnosticSpan where
  file_name : String
  line_start : Nat
  line_end : Nat
  column_start : Nat
  column_end : Nat
  is_primary : Bool
deriving DecidableEq

/-- Struct `Diagnostic` from `cargo/rustc.rs`. -/
structure Diagnostic where
  message : String
  level : DiagnosticLevel
  spans : List DiagnosticSpan
  rendered : Option String
deriving DecidableEq

/-- The annotation built from a diagnostic and its primary span
(the struct literal in `Diagnostic::into_annotations`). -/
def Diagnostic.annOf (d : Diagnostic) (ps : DiagnosticSpan) : Ann :=
  { kind := AnnotationKind.ofLevel d.level
    file := ps.file_name
    line := ps.line_start
    end_line := some ps.line_end
    col := some ps.column_start
    end_column := some ps.column_end
    title := d.rendered.map fun _ => d.message
    message := d.rendered.getD d.message }

/-- Function `Diagnostic::into_annotations` (`cargo/rustc.rs` 30-50): finds the first
primary span (panicking — here, erroring — when there is none) and returns
exactly one annotation built from it. -/
def Diagnostic.into_annotations (d : Diagnostic) : Except String (List Ann) :=
  match d.spans.find? (fun sp => sp.is_primary) with
  | none => .error "Missing primary span"
  | some ps => .ok [d.annOf ps]

/-- The annotations of a diagnostic as a total function: the singleton for
the first primary span, `[]` when there is none (the latter case aborts the
real program). -/
def Diagnostic.primaryAnns (d : Diagnostic) : List Ann :=
  match d.spans.find? (fun sp => sp.is_primary) with
  | none => []
  | some ps => [d.annOf ps]

/-- Struct `DiagnosticSummary` from `cargo/rustc.rs`. -/
structure DiagnosticSummary where
  level : DiagnosticLevel
  message : String
  location : Option (String × Nat)
deriving DecidableEq

/-- Conversion `From<&Diagnostic> for DiagnosticSummary`: level, message and the
`(file, line_start)` of the first primary span. -/
def Diagnostic.summarize (d : Diagnostic) : List DiagnosticSummary :=
  [⟨d.level, d.message,
    d.spans.findSome? fun sp =>
      if sp.is_primary then some (sp.file_name, sp.line_start) else none⟩]

/-- The per-kind counters of `DiagnosticSummaryWriter`
(`HashMap<AnnotationKind, usize>` as a total triple). -/
structure KindCount where
  error : Nat
  warning : Nat
  notice : Nat
deriving DecidableEq

/-- Increments the counter of one kind (`*entry().or_default() += 1`). -/
def KindCount.incr (c : KindCount) : AnnotationKind → KindCount
  | .error => { c with error := c.error + 1 }
  | .warning => { c with warning := c.warning + 1 }
  | .notice => { c with notice := c.notice + 1 }

/-- Total number of summary rows counted. -/
def KindCount.total (c : KindCount) : Nat :=
  c.error + c.warning + c.notice

/-- Function `DiagnosticSummaryWriter::write_summary`: bump the counter of the
summary's kind and append one markdown table row to the content buffer. -/
def diagWriteSummary (counts : KindCount) (content : String)
    (s : DiagnosticSummary) : KindCount × String :=
  let kind := AnnotationKind.ofLevel s.level
  let location :=
    match s.location with
    | some fl => "`" ++ fl.1 ++ ":" ++ Nat.repr fl.2 ++ "`"
    | none => ""
  (counts.incr kind,
    content ++ "|" ++ kind.displayString ++ "|" ++ s.message ++ "|"
      ++ location ++ "|\n")

/-- The mutable state shared by both producer paths of the driver loop:
the dedup set (as its insertion-ordered element list), the emitted wire
lines, and the running maximum severity. -/
structure EmitState where
  buf : List Ann
  out : List String
  maxAnn : AnnotationKind
deriving DecidableEq

/-- The membership test of `BTreeSet::insert`: some stored element compares
`Equal` to the candidate. -/
def emitHit (s : EmitState) (a : Ann) : Bool :=
  s.buf.any fun b => Ann.cmp b a = .eq

/-- One iteration of the inner annotation loop of `handle_message!`
(`main.rs` 114-120), as a pure state update: on a fresh annotation, insert
it, emit its wire line and raise the running maximum severity; on a
duplicate, do nothing. -/
def emitStep (s : EmitState) (a : Ann) : EmitState :=
  if emitHit s a then s
  else ⟨s.buf ++ [a], s.out ++ [displayAnn a], s.maxAnn.max a.kind⟩

/-- The inner annotation loop of `handle_message!` over one message's
annotation list, also computing the `write_summaries` flag (true iff some
insertion actually added a new element). -/
def processAnns (s : EmitState) (l : List Ann) : EmitState × Bool :=
  l.foldl (fun p a => (emitStep p.1 a, p.2 || !emitHit p.1 a)) (s, false)

/-- The initial driver-loop emission state: empty dedup set, no output,
`max_annotation = Notice`. -/
def initEmit : EmitState :=
  ⟨[], [], .notice⟩

/-- The full per-invocation state of the diagnostic (`check`/`clippy`/
`build`) path: emission state plus the `DiagnosticSummaryWriter` counters
and the `summary_content` buffer. -/
structure DiagState where
  emit : EmitState
  counts : KindCount
  content : String
deriving DecidableEq

/-- One iteration of `handle_message!` for a parsed `Diagnostic` record:
convert to annotations (propagating the missing-primary-span abort),
dedup/emit each, and fold the record's summaries into the writer only if
some insertion added a new element. -/
def diagStep (st : DiagState) (d : Diagnostic) : Except String DiagState :=
  match d.into_annotations with
  | .error e => .error e
  | .ok anns =>
    let p := processAnns st.emit anns
    let q :=
      if p.2 then
        d.summarize.foldl (fun q s => diagWriteSummary q.1 q.2 s)
          (st.counts, st.content)
      else (st.counts, st.content)
    .ok ⟨p.1, q.1, q.2⟩

/-- The driver loop of the diagnostic path over the (already parsed)
records of the captured output, from the initial state. -/
def runDiag (ds : List Diagnostic) : Except String DiagState :=
  ds.foldlM diagStep ⟨initEmit, ⟨0, 0, 0⟩, ""⟩

/-- Struct `FormatMismatch` from `cargo/rustfmt.rs`. -/
structure FormatMismatch where
  original_begin_line : Nat
  original_end_line : Nat
  expected_begin_line : Nat
  expected_end_line : Nat
  original : String
  expected : String
deriving DecidableEq

/-- Struct `FormatMismatches` from `cargo/rustfmt.rs`. -/
structure FormatMismatches where
  name : String
  mismatches : List FormatMismatch
deriving DecidableEq

/-- Fuel-driven kernel of `str::trim_start_matches` with a string pattern:
repeatedly removes the leading occurrence of `p` while it is a prefix. -/
def stripLeadingFuel : Nat → List Char → List Char → List Char
  | 0, _, s => s
  | n + 1, p, s =>
    if p ≠ [] ∧ p.isPrefixOf s then stripLeadingFuel n p (s.drop p.length)
    else s

/-- Rust `str::trim_start_matches(pattern: &str)`: all leading repetitions
of `p` removed (`s.length` rounds of fuel always suffice, since each
removal strips at least one character). -/
def stripLeading (p s : List Char) : List Char :=
  stripLeadingFuel s.length p s

/-- The path normalization of the rustfmt path: strip the current working
directory prefix, then all leading `/` (`trim_start_matches` twice). -/
def normalizeFmtPath (cwd name : String) : String :=
  String.mk ((stripLeading cwd.data name.data).dropWhile (fun c => c = '/'))

/-- Implementation of `HandleMessage::into_annotations` for `Vec<FormatMismatches>`
(`cargo/rustfmt.rs` 25-54): one Warning annotation per individual mismatch,
title `Format mismatch`, no column info, message = the expected text. -/
def fmtIntoAnns (cwd : String) (ms : List FormatMismatches) : List Ann :=
  ms.flatMap fun m =>
    m.mismatches.map fun mm =>
      { kind := .warning
        file := normalizeFmtPath cwd m.name
        line := mm.original_begin_line
        end_line := some mm.original_end_line
        col := none
        end_column := none
        title := some "Format mismatch"
        message := mm.expected }

/-- Struct `FormatMismatchesSummary` from `cargo/rustfmt.rs`. -/
structure FormatMismatchesSummary where
  file : String
  lines : List Nat
deriving DecidableEq

/-- Conversion `From<&FormatMismatches> for FormatMismatchesSummary`. -/
def fmtSummaryOf (cwd : String) (m : FormatMismatches) : FormatMismatchesSummary :=
  ⟨normalizeFmtPath cwd m.name, m.mismatches.map fun mm => mm.original_begin_line⟩

/-- Function `FormatMismatchSummaryWriter::write_summary`: add the number of
mismatched lines to the running count, and append the file heading plus
one indented line per mismatched line number. -/
def fmtWriteSummary (count : Nat) (content : String)
    (s : FormatMismatchesSummary) : Nat × String :=
  (count + s.lines.length,
    content ++ "- `" ++ s.file ++ "`\n"
      ++ String.join (s.lines.map fun l => "  - L" ++ Nat.repr l ++ "\n"))

/-- The full per-invocation state of the rustfmt (`fmt`) path. -/
structure FmtState where
  emit : EmitState
  count : Nat
  content : String
deriving DecidableEq

/-- The driver loop of the rustfmt path: the whole captured output parses
as a single `Vec<FormatMismatches>` message, so `handle_message!` runs its
body exactly once over the flattened annotation list, and the summaries of
every `FormatMismatches` in the array are folded in iff some insertion
added a new element. -/
def runFmt (cwd : String) (ms : List FormatMismatches) : FmtState :=
  let p := processAnns initEmit (fmtIntoAnns cwd ms)
  let q :=
    if p.2 then
      (ms.map (fmtSummaryOf cwd)).foldl (fun q s => fmtWriteSummary q.1 q.2 s)
        (0, "")
    else (0, "")
  ⟨p.1, q.1, q.2⟩

/-- The failure threshold chosen in `main` from the `--allow-warnings`
flag (`main.rs` 93-97). -/
def annotationThreshold (allow_warnings : Bool) : AnnotationKind :=
  if allow_warnings then .error else .warning

/-- The exit-status policy of `main` (`main.rs` 152): failure iff the
running maximum severity reached the threshold. -/
def exitFailure (allow_warnings : Bool) (maxAnn : AnnotationKind) : Bool :=
  (annotationThreshold allow_warnings).toNat ≤ maxAnn.toNat

/-- The key set of the dedup buffer. -/
def bufKeys (s : EmitState) : Finset AnnKey :=
  (s.buf.map Ann.key).toFinset

instance : Std.Commutative AnnotationKind.max :=
  ⟨fun a b => by cases a <;> cases b <;> rfl⟩

instance : Std.Associative AnnotationKind.max :=
  ⟨fun a b c => by cases a <;> cases b <;> cases c <;> rfl⟩

/-- The maximum severity of a key set, with `Notice` as the base
(the value tracked by `max_annotation`). -/
def keysMax (K : Finset AnnKey) : AnnotationKind :=
  K.fold AnnotationKind.max .notice (fun k => k.kind)


/-! Helper lemmas about the comparators. -/

theorem then_eq_eq {x y : Ordering} : x.then y = .eq ↔ x = .eq ∧ y = .eq := by
  cases x <;> simp [Ordering.then]

theorem then_eq_lt {x y : Ordering} :
    x.then y = .lt ↔ x = .lt ∨ (x = .eq ∧ y = .lt) := by
  cases x <;> simp [Ordering.then]

theorem swap_eq_eq {x : Ordering} : x.swap = .eq ↔ x = .eq := by
  cases x <;> simp [Ordering.swap]

theorem swap_eq_lt {x : Ordering} : x.swap = .lt ↔ x = .gt := by
  cases x <;> simp [Ordering.swap]

theorem natCmp_eq_iff {a b : Nat} : natCmp a b = .eq ↔ a = b := by
  unfold natCmp
  split
  · simp
    omega
  · split <;> simp_all

theorem natCmp_lt_iff {a b : Nat} : natCmp a b = .lt ↔ a < b := by
  unfold natCmp
  split
  · simp_all
  · split <;> simp_all

theorem natCmp_gt_iff {a b : Nat} : natCmp a b = .gt ↔ b < a := by
  unfold natCmp
  split
  · simp_all
    omega
  · split <;> simp_all
    omega

theorem charCmp_eq_iff {a b : Char} : charCmp a b = .eq ↔ a = b := by
  unfold charCmp
  split
  · rename_i h
    simp
    exact ne_of_lt h
  · split <;> simp_all

theorem listCmp_eq_iff {f : α → α → Ordering} (hf : ∀ a b, f a b = .eq ↔ a = b) :
    ∀ l₁ l₂ : List α, listCmp f l₁ l₂ = .eq ↔ l₁ = l₂
  | [], [] => by simp [listCmp]
  | [], _ :: _ => by simp [listCmp]
  | _ :: _, [] => by simp [listCmp]
  | a :: as_, b :: bs => by
    simp [listCmp, then_eq_eq, hf, listCmp_eq_iff hf as_ bs]

theorem strCmp_eq_iff {a b : String} : strCmp a b = .eq ↔ a = b := by
  unfold strCmp
  rw [listCmp_eq_iff (fun _ _ => charCmp_eq_iff)]
  exact ⟨String.ext, congrArg String.data⟩

theorem compCmp_eq_iff {a b : PathComponent} : PathComponent.cmp a b = .eq ↔ a = b := by
  cases a <;> cases b <;>
    simp [PathComponent.cmp, PathComponent.rank, natCmp_eq_iff, strCmp_eq_iff]

theorem pathCmp_eq_iff {a b : String} :
    pathCmp a b = .eq ↔ pathComponents a = pathComponents b :=
  listCmp_eq_iff (fun _ _ => compCmp_eq_iff) _ _

theorem optCmp_natCmp_eq_iff {o₁ o₂ : Option Nat} :
    optCmp natCmp o₁ o₂ = .eq ↔ o₁ = o₂ := by
  cases o₁ <;> cases o₂ <;> simp [optCmp, natCmp_eq_iff]

theorem optCmp_natCmp_lt_iff {o₁ o₂ : Option Nat} :
    optCmp natCmp o₁ o₂ = .lt ↔
      ((o₁ = none ∧ o₂ ≠ none) ∨ ∃ x y, o₁ = some x ∧ o₂ = some y ∧ x < y) := by
  cases o₁ <;> cases o₂ <;> simp [optCmp, natCmp_lt_iff]

theorem kindCmp_eq_iff {a b : AnnotationKind} : AnnotationKind.cmp a b = .eq ↔ a = b := by
  cases a <;> cases b <;> decide

theorem kindCmp_gt_iff {a b : AnnotationKind} :
    AnnotationKind.cmp a b = .gt ↔ b.toNat < a.toNat := by
  cases a <;> cases b <;> decide

theorem cmp_eq_iff_key {a b : Ann} : Ann.cmp a b = .eq ↔ a.key = b.key := by
  unfold Ann.cmp Ann.key
  simp only [then_eq_eq, swap_eq_eq, pathCmp_eq_iff, natCmp_eq_iff,
    optCmp_natCmp_eq_iff, kindCmp_eq_iff, AnnKey.mk.injEq]
  tauto

theorem cmp_refl (a : Ann) : Ann.cmp a a = .eq :=
  cmp_eq_iff_key.mpr rfl


/-! Helper lemmas about the dedup/emission loop. -/

theorem emitHit_iff {s : EmitState} {a : Ann} :
    emitHit s a = true ↔ a.key ∈ s.buf.map Ann.key := by
  unfold emitHit
  rw [List.any_eq_true]
  simp [cmp_eq_iff_key]

theorem processAnns_fst_aux : ∀ (l : List Ann) (s : EmitState) (w : Bool),
    (l.foldl (fun p a => (emitStep p.1 a, p.2 || !emitHit p.1 a)) (s, w)).1
      = l.foldl emitStep s
  | [], _, _ => rfl
  | a :: l, s, w => processAnns_fst_aux l (emitStep s a) (w || !emitHit s a)

theorem processAnns_fst (s : EmitState) (l : List Ann) :
    (processAnns s l).1 = l.foldl emitStep s :=
  processAnns_fst_aux l s false

theorem emitStep_hit {s : EmitState} {a : Ann} (h : emitHit s a = true) :
    emitStep s a = s := by
  unfold emitStep
  rw [if_pos h]

theorem emitHit_emitStep {s : EmitState} {a b : Ann} (h : emitHit s a = true) :
    emitHit (emitStep s b) a = true := by
  unfold emitStep
  split
  · exact h
  · unfold emitHit at h ⊢
    simp only [List.any_append, h, Bool.true_or]

theorem emitHit_self (s : EmitState) (a : Ann) :
    emitHit (emitStep s a) a = true := by
  unfold emitStep
  split
  next h => exact h
  · unfold emitHit
    simp [List.any_append, cmp_refl]

theorem emitHit_foldl {l : List Ann} : ∀ {s : EmitState} {a : Ann},
    emitHit s a = true → emitHit (l.foldl emitStep s) a = true := by
  induction l with
  | nil => exact fun h => h
  | cons b l ih => exact fun h => ih (emitHit_emitStep h)

theorem emitHit_foldl_mem (l : List Ann) : ∀ (s : EmitState) (a : Ann), a ∈ l →
    emitHit (l.foldl emitStep s) a = true := by
  induction l with
  | nil => intro s a h; cases h
  | cons b l ih =>
    intro s a h
    rw [List.foldl_cons]
    rcases List.mem_cons.mp h with h | h
    · subst h
      exact emitHit_foldl (emitHit_self s a)
    · exact ih _ a h

theorem foldl_pair_noop (l : List Ann) : ∀ (s : EmitState) (w : Bool),
    (∀ a ∈ l, emitHit s a = true) →
    l.foldl (fun p a => (emitStep p.1 a, p.2 || !emitHit p.1 a)) (s, w) = (s, w) := by
  induction l with
  | nil => intro s w _; rfl
  | cons a l ih =>
    intro s w h
    have ha := h a (List.mem_cons_self a l)
    rw [List.foldl_cons]
    show l.foldl _ (emitStep s a, w || !emitHit s a) = (s, w)
    rw [ha, emitStep_hit ha]
    simp only [Bool.not_true, Bool.or_false]
    exact ih s w (fun a' ha' => h a' (List.mem_cons_of_mem _ ha'))

theorem foldl_emit_mem (l : List Ann) : ∀ (s : EmitState) (k : AnnKey),
    k ∈ (l.foldl emitStep s).buf.map Ann.key ↔
      k ∈ s.buf.map Ann.key ∨ k ∈ l.map Ann.key := by
  induction l with
  | nil => intro s k; simp
  | cons a l ih =>
    intro s k
    rw [List.foldl_cons, ih]
    by_cases h : emitHit s a = true
    · have hk : a.key ∈ s.buf.map Ann.key := emitHit_iff.mp h
      rw [emitStep_hit h]
      simp only [List.map_cons, List.mem_cons]
      constructor
      · exact fun hh => hh.elim .inl (fun hh => .inr (.inr hh))
      · rintro (hh | hh | hh)
        · exact .inl hh
        · subst hh
          exact .inl hk
        · exact .inr hh
    · unfold emitStep
      rw [if_neg h]
      simp only [List.map_append, List.map_cons, List.map_nil, List.mem_append,
        List.mem_cons, List.mem_singleton, List.not_mem_nil, or_false]
      tauto

theorem foldl_emit_nodup (l : List Ann) : ∀ s : EmitState,
    (s.buf.map Ann.key).Nodup → ((l.foldl emitStep s).buf.map Ann.key).Nodup := by
  induction l with
  | nil => exact fun s h => h
  | cons a l ih =>
    intro s h
    rw [List.foldl_cons]
    apply ih
    by_cases hh : emitHit s a = true
    · rw [emitStep_hit hh]
      exact h
    · unfold emitStep
      rw [if_neg hh]
      have hk : a.key ∉ s.buf.map Ann.key := fun hmem => hh (emitHit_iff.mpr hmem)
      simp only [List.map_append, List.map_cons, List.map_nil]
      rw [List.nodup_append]
      refine ⟨h, List.nodup_singleton _, ?_⟩
      intro x hx
      simp only [List.mem_singleton]
      exact fun hxk => hk (hxk ▸ hx)

theorem foldl_emit_len (l : List Ann) : ∀ s : EmitState,
    (l.foldl emitStep s).out.length + s.buf.length
      = (l.foldl emitStep s).buf.length + s.out.length := by
  induction l with
  | nil =>
    intro s
    rw [List.foldl_nil]
    omega
  | cons a l ih =>
    intro s
    rw [List.foldl_cons]
    have h2 := ih (emitStep s a)
    by_cases hh : emitHit s a = true
    · rw [emitStep_hit hh] at h2 ⊢
      exact h2
    · unfold emitStep at h2
      rw [if_neg hh] at h2
      unfold emitStep
      rw [if_neg hh]
      simp only [List.length_append, List.length_cons, List.length_nil] at h2
      omega

theorem bufKeys_emitStep_miss {s : EmitState} {a : Ann} (h : ¬ emitHit s a = true) :
    bufKeys (emitStep s a) = insert a.key (bufKeys s) := by
  unfold emitStep
  rw [if_neg h]
  unfold bufKeys
  simp only [List.map_append, List.map_cons, List.map_nil, List.toFinset_append]
  rw [Finset.insert_eq, Finset.union_comm]
  simp

theorem kind_max_comm (x y : AnnotationKind) : x.max y = y.max x := by
  cases x <;> cases y <;> rfl

theorem foldl_emit_max (l : List Ann) : ∀ s : EmitState,
    s.maxAnn = keysMax (bufKeys s) →
    (l.foldl emitStep s).maxAnn = keysMax (bufKeys (l.foldl emitStep s)) := by
  induction l with
  | nil => exact fun s h => h
  | cons a l ih =>
    intro s h
    rw [List.foldl_cons]
    apply ih
    by_cases hh : emitHit s a = true
    · rw [emitStep_hit hh]
      exact h
    · have hk : a.key ∉ bufKeys s :=
        fun hmem => hh (emitHit_iff.mpr (List.mem_toFinset.mp hmem))
      have hm : (emitStep s a).maxAnn = s.maxAnn.max a.kind := by
        unfold emitStep
        rw [if_neg hh]
      rw [hm, bufKeys_emitStep_miss hh, h]
      unfold keysMax
      rw [Finset.fold_insert hk]
      exact kind_max_comm _ _

theorem foldl_emit_maxList (l : List Ann) : ∀ s : EmitState,
    s.maxAnn = (s.buf.map fun a => a.kind).foldl AnnotationKind.max .notice →
    (l.foldl emitStep s).maxAnn
      = ((l.foldl emitStep s).buf.map fun a => a.kind).foldl AnnotationKind.max .notice := by
  induction l with
  | nil => exact fun s h => h
  | cons a l ih =>
    intro s h
    rw [List.foldl_cons]
    apply ih
    by_cases hh : emitHit s a = true
    · rw [emitStep_hit hh]
      exact h
    · unfold emitStep
      rw [if_neg hh]
      simp only [List.map_append, List.map_cons, List.map_nil, List.foldl_append,
        List.foldl_cons, List.foldl_nil]
      rw [h]


/-! Helper lemmas about the diagnostic driver loop. -/

theorem into_ok {d : Diagnostic}
    (h : (d.spans.find? fun sp => sp.is_primary).isSome) :
    d.into_annotations = .ok d.primaryAnns := by
  unfold Diagnostic.into_annotations Diagnostic.primaryAnns
  cases hf : d.spans.find? fun sp => sp.is_primary with
  | none =>
    rw [hf] at h
    simp at h
  | some ps => rfl

theorem into_err {d : Diagnostic}
    (h : d.spans.find? (fun sp => sp.is_primary) = none) :
    d.into_annotations = .error "Missing primary span" := by
  unfold Diagnostic.into_annotations
  rw [h]

theorem diagStep_ok {st : DiagState} {d : Diagnostic}
    (h : (d.spans.find? fun sp => sp.is_primary).isSome) :
    ∃ st', diagStep st d = .ok st' ∧
      st'.emit = d.primaryAnns.foldl emitStep st.emit := by
  unfold diagStep
  rw [into_ok h]
  exact ⟨_, rfl, processAnns_fst _ _⟩

theorem foldlM_diag (l : List Diagnostic) : ∀ st : DiagState,
    (∀ d ∈ l, (d.spans.find? fun sp => sp.is_primary).isSome) →
    ∃ s, List.foldlM diagStep st l = .ok s ∧
      s.emit = (l.flatMap Diagnostic.primaryAnns).foldl emitStep st.emit := by
  induction l with
  | nil => exact fun st _ => ⟨st, rfl, rfl⟩
  | cons d l ih =>
    intro st h
    obtain ⟨st1, h1, he1⟩ := @diagStep_ok st d (h d (List.mem_cons_self d l))
    obtain ⟨s, hs, hes⟩ := ih st1 (fun d' hd' => h d' (List.mem_cons_of_mem _ hd'))
    refine ⟨s, ?_, ?_⟩
    · rw [List.foldlM_cons, h1]
      exact hs
    · rw [List.flatMap_cons, List.foldl_append, ← he1]
      exact hes

theorem runDiag_char {l : List Diagnostic}
    (h : ∀ d ∈ l, (d.spans.find? fun sp => sp.is_primary).isSome) :
    ∃ s, runDiag l = .ok s ∧
      s.emit = (l.flatMap Diagnostic.primaryAnns).foldl emitStep initEmit :=
  foldlM_diag l ⟨initEmit, ⟨0, 0, 0⟩, ""⟩ h

theorem initEmit_nodup : ((initEmit.buf.map Ann.key)).Nodup := by
  simp [initEmit]

theorem initEmit_max : initEmit.maxAnn = keysMax (bufKeys initEmit) := by
  simp [initEmit, keysMax, bufKeys]

theorem initEmit_maxList :
    initEmit.maxAnn = (initEmit.buf.map fun a => a.kind).foldl AnnotationKind.max .notice := by
  simp [initEmit]

theorem emitRun_len (A : List Ann) :
    (A.foldl emitStep initEmit).out.length = (bufKeys (A.foldl emitStep initEmit)).card := by
  have h3 := foldl_emit_len A initEmit
  have h4 : initEmit.buf.length = 0 := rfl
  have h5 : initEmit.out.length = 0 := rfl
  unfold bufKeys
  rw [List.toFinset_card_of_nodup (foldl_emit_nodup A initEmit initEmit_nodup),
    List.length_map]
  omega

theorem emitRun_perm {A₁ A₂ : List Ann} (p : A₁.Perm A₂) :
    bufKeys (A₁.foldl emitStep initEmit) = bufKeys (A₂.foldl emitStep initEmit) ∧
    (A₁.foldl emitStep initEmit).out.length = (A₂.foldl emitStep initEmit).out.length ∧
    (A₁.foldl emitStep initEmit).maxAnn = (A₂.foldl emitStep initEmit).maxAnn := by
  have hkeys : bufKeys (A₁.foldl emitStep initEmit) = bufKeys (A₂.foldl emitStep initEmit) := by
    apply Finset.ext
    intro k
    unfold bufKeys
    rw [List.mem_toFinset, List.mem_toFinset, foldl_emit_mem, foldl_emit_mem]
    simp only [initEmit, List.map_nil, List.not_mem_nil, false_or]
    exact (p.map Ann.key).mem_iff
  refine ⟨hkeys, ?_, ?_⟩
  · rw [emitRun_len, emitRun_len, hkeys]
  · rw [foldl_emit_max A₁ initEmit initEmit_max, foldl_emit_max A₂ initEmit initEmit_max,
      hkeys]


/-! Helper lemmas about the wire encoding. -/

theorem replaceChar_eq_flatMap (c : Char) (r : List Char) :
    ∀ l : List Char, replaceChar c r l = l.flatMap fun x => if x = c then r else [x]
  | [] => rfl
  | x :: xs => by
    rw [List.flatMap_cons]
    unfold replaceChar
    rw [replaceChar_eq_flatMap c r xs]
    split <;> rfl

theorem escChar_pointwise (x : Char) :
    (if x = '%' then ['%', '2', '5'] else [x]).flatMap
        (fun y => (if y = '\n' then ['%', '0', 'A'] else [y]).flatMap
          (fun z => if z = '\r' then ['%', '0', 'D'] else [z]))
      = escChar x := by
  by_cases h1 : x = '%'
  · subst h1
    rfl
  · by_cases h2 : x = '\n'
    · subst h2
      rfl
    · by_cases h3 : x = '\r'
      · subst h3
        rfl
      · simp [escChar, h1, h2, h3]

theorem encode_singlepass (l : List Char) :
    replaceChar '\r' ['%', '0', 'D']
        (replaceChar '\n' ['%', '0', 'A']
          (replaceChar '%' ['%', '2', '5'] l))
      = l.flatMap escChar := by
  rw [replaceChar_eq_flatMap, replaceChar_eq_flatMap, replaceChar_eq_flatMap,
    List.flatMap_assoc, List.flatMap_assoc]
  exact congrArg (fun f => l.flatMap f) (funext escChar_pointwise)

theorem newline_not_mem_escChar (c : Char) : '\n' ∉ escChar c := by
  by_cases h1 : c = '%'
  · subst h1
    decide
  · by_cases h2 : c = '\n'
    · subst h2
      decide
    · by_cases h3 : c = '\r'
      · subst h3
        decide
      · intro hmem
        unfold escChar at hmem
        rw [if_neg h1, if_neg h2, if_neg h3, List.mem_singleton] at hmem
        exact h2 hmem.symm

theorem encode_data (s : String) :
    (encodeMessage s).data = (trimChars s.data).flatMap escChar := by
  unfold encodeMessage
  exact encode_singlepass _

theorem newline_not_mem_encode (s : String) : '\n' ∉ (encodeMessage s).data := by
  rw [encode_data]
  intro hmem
  obtain ⟨x, _, hx⟩ := List.mem_flatMap.mp hmem
  exact newline_not_mem_escChar x hx


/-! Remaining small helpers. -/

theorem foldl_emit_noop (l : List Ann) : ∀ s : EmitState,
    (∀ a ∈ l, emitHit s a = true) → l.foldl emitStep s = s := by
  induction l with
  | nil => intro s _; rfl
  | cons a l ih =>
    intro s h
    rw [List.foldl_cons, emitStep_hit (h a (List.mem_cons_self a l))]
    exact ih s (fun a' ha' => h a' (List.mem_cons_of_mem _ ha'))

theorem incr_total (c : KindCount) (k : AnnotationKind) :
    (c.incr k).total = c.total + 1 := by
  cases k <;> simp [KindCount.incr, KindCount.total] <;> omega

/-! The claims. -/

/-- C7: the mapping from the six diagnostic levels to annotation severities
sends Error and InternalCompilerError to Error, Warning to Warning, and
Note, Help and FailureNote to Notice. -/
theorem claim7_severity_mapping :
    AnnotationKind.ofLevel .error = .error ∧
    AnnotationKind.ofLevel .internalCompilerError = .error ∧
    AnnotationKind.ofLevel .warning = .warning ∧
    AnnotationKind.ofLevel .note = .notice ∧
    AnnotationKind.ofLevel .help = .notice ∧
    AnnotationKind.ofLevel .failureNote = .notice :=
  ⟨rfl, rfl, rfl, rfl, rfl, rfl⟩

/-- C5: the wire encoding of a message first trims it and then applies the
three substitutions percent, newline, carriage-return in exactly this
order; the composition acts as one simultaneous pass over the trimmed
characters, so a percent present in the input is encoded exactly once and
the percents introduced by the escape sequences are never re-encoded. -/
theorem claim5_message_encoding : ∀ s : String,
    encodeMessage s
        = String.mk
            (replaceChar '\r' ['%', '0', 'D']
              (replaceChar '\n' ['%', '0', 'A']
                (replaceChar '%' ['%', '2', '5'] (trimChars s.data)))) ∧
    (encodeMessage s).data = (trimChars s.data).flatMap escChar :=
  fun s => ⟨rfl, encode_data s⟩

/-- C8: a diagnostic record with no span flagged primary makes the
conversion fail, and the driver loop propagates the failure as an abort of
the whole run; a record with at least one primary span converts to exactly
one annotation. -/
theorem claim8_missing_primary_fatal : ∀ d : Diagnostic,
    ((∀ sp ∈ d.spans, sp.is_primary = false) →
      d.into_annotations = .error "Missing primary span" ∧
        runDiag [d] = .error "Missing primary span") ∧
    ((∃ sp ∈ d.spans, sp.is_primary = true) →
      ∃ a, d.into_annotations = .ok [a]) := by
  intro d
  constructor
  · intro h
    have hf : d.spans.find? (fun sp => sp.is_primary) = none := by
      rw [List.find?_eq_none]
      intro sp hsp
      simp [h sp hsp]
    have he := into_err hf
    refine ⟨he, ?_⟩
    have h1 : diagStep ⟨initEmit, ⟨0, 0, 0⟩, ""⟩ d = .error "Missing primary span" := by
      unfold diagStep
      rw [he]
    unfold runDiag
    rw [List.foldlM_cons, h1]
    rfl
  · intro h
    have hf : (d.spans.find? fun sp => sp.is_primary).isSome := by
      rw [List.find?_isSome]
      obtain ⟨sp, hsp, hp⟩ := h
      exact ⟨sp, hsp, hp⟩
    obtain ⟨ps, hps⟩ := Option.isSome_iff_exists.mp hf
    refine ⟨d.annOf ps, ?_⟩
    unfold Diagnostic.into_annotations
    rw [hps]

/-- Witness for C8 at two concrete records: one with a single non-primary
span, one with a single primary span. -/
theorem claim8_missing_primary_fatal_witness :
    (∀ sp ∈ (⟨"m", .warning, [⟨"f", 1, 1, 1, 1, false⟩], none⟩ : Diagnostic).spans,
        sp.is_primary = false) ∧
    (Diagnostic.into_annotations ⟨"m", .warning, [⟨"f", 1, 1, 1, 1, false⟩], none⟩
        = .error "Missing primary span" ∧
      runDiag [⟨"m", .warning, [⟨"f", 1, 1, 1, 1, false⟩], none⟩]
        = .error "Missing primary span") ∧
    (∃ sp ∈ (⟨"m", .warning, [⟨"f", 1, 1, 1, 1, true⟩], none⟩ : Diagnostic).spans,
        sp.is_primary = true) ∧
    (∃ a, Diagnostic.into_annotations ⟨"m", .warning, [⟨"f", 1, 1, 1, 1, true⟩], none⟩
        = .ok [a]) :=
  ⟨by decide,
    (claim8_missing_primary_fatal _).1 (by decide),
    by decide,
    (claim8_missing_primary_fatal _).2 (by decide)⟩

/-- C6: the comparison of two annotations is lexicographic in file path
(path-component order), then line ascending, then column ascending with an
absent column before any present one, then severity descending (a more
severe kind sorts strictly earlier when file, line and column agree). -/
theorem claim6_ordering : ∀ a b : Ann,
    Ann.cmp a b = .lt ↔
      (pathCmp a.file b.file = .lt ∨
        (pathComponents a.file = pathComponents b.file ∧
          (a.line < b.line ∨
            (a.line = b.line ∧
              ((a.col = none ∧ b.col ≠ none) ∨
                (∃ x y, a.col = some x ∧ b.col = some y ∧ x < y) ∨
                (a.col = b.col ∧ b.kind.toNat < a.kind.toNat)))))) := by
  intro a b
  unfold Ann.cmp
  simp only [then_eq_lt, then_eq_eq, swap_eq_lt, pathCmp_eq_iff, natCmp_lt_iff,
    natCmp_eq_iff, optCmp_natCmp_lt_iff, optCmp_natCmp_eq_iff]
  rw [show AnnotationKind.cmp a.kind b.kind = .gt ↔ b.kind.toNat < a.kind.toNat from
    kindCmp_gt_iff]
  rcases ha : a.col with _ | x <;> rcases hb : b.col with _ | y <;>
    simp [ha, hb] <;> tauto

/-- C1 (amended): the dedup comparison returns Equal exactly when the
compared key (file path components, line, column, severity) agrees, and any
annotation whose key is already in the buffer is treated as a duplicate by
the insertion step, even when it is structurally different. -/
theorem claim1_amended_dedup_key :
    (∀ a b : Ann, Ann.cmp a b = .eq ↔ a.key = b.key) ∧
    (∀ (s : EmitState) (a : Ann),
      (∃ b ∈ s.buf, Ann.key b = Ann.key a) → emitStep s a = s) := by
  constructor
  · exact fun a b => cmp_eq_iff_key
  · intro s a h
    apply emitStep_hit
    rw [emitHit_iff, List.mem_map]
    obtain ⟨b, hb, he⟩ := h
    exact ⟨b, hb, he⟩

/-- Witness for the amended C1: a key-equal but structurally different
annotation is dropped by the insertion step. -/
theorem claim1_amended_dedup_key_witness :
    (∃ b ∈ ([⟨.warning, "f.rs", 1, none, none, none, none, "a"⟩] : List Ann),
        Ann.key b = Ann.key ⟨.warning, "f.rs", 1, some 2, none, none, some "t", "b"⟩) ∧
    emitStep ⟨[⟨.warning, "f.rs", 1, none, none, none, none, "a"⟩], [], .warning⟩
        ⟨.warning, "f.rs", 1, some 2, none, none, some "t", "b"⟩
      = ⟨[⟨.warning, "f.rs", 1, none, none, none, none, "a"⟩], [], .warning⟩ :=
  ⟨by decide, claim1_amended_dedup_key.2 _ _ (by decide)⟩

/-- C1 is false as stated: these two annotations are structurally unequal
(they differ in end_line, title and message) yet the dedup comparison
returns Equal and the insertion treats the second as a duplicate. -/
theorem claim1_counterexample :
    (⟨.warning, "f.rs", 1, none, none, none, none, "a"⟩ : Ann)
        ≠ ⟨.warning, "f.rs", 1, some 2, none, none, some "t", "b"⟩ ∧
    Ann.cmp ⟨.warning, "f.rs", 1, none, none, none, none, "a"⟩
        ⟨.warning, "f.rs", 1, some 2, none, none, some "t", "b"⟩ = .eq ∧
    emitStep ⟨[⟨.warning, "f.rs", 1, none, none, none, none, "a"⟩], [], .warning⟩
        ⟨.warning, "f.rs", 1, some 2, none, none, some "t", "b"⟩
      = ⟨[⟨.warning, "f.rs", 1, none, none, none, none, "a"⟩], [], .warning⟩ :=
  ⟨by decide, by decide, by decide⟩

/-- C3 is false as stated: the scenario-A record converts to an annotation
whose wire line carries `endLine=3`, so the emitted line is not the claimed
one (which omits the endLine field). -/
theorem claim3_counterexample :
    Diagnostic.into_annotations
        ⟨"unused variable", .warning, [⟨"src/a.rs", 3, 3, 1, 5, true⟩], none⟩
      = .ok [⟨.warning, "src/a.rs", 3, some 3, some 1, some 5, none, "unused variable"⟩] ∧
    displayAnn ⟨.warning, "src/a.rs", 3, some 3, some 1, some 5, none, "unused variable"⟩
      ≠ "::warning file=src/a.rs,line=3,col=1,endColumn=5::unused variable" :=
  ⟨rfl, by decide⟩

/-- C3 (amended): the scenario-A record converts to exactly one annotation
and its wire line is
`::warning file=src/a.rs,line=3,endLine=3,col=1,endColumn=5::unused variable`. -/
theorem claim3_amended_scenario_a :
    Diagnostic.into_annotations
        ⟨"unused variable", .warning, [⟨"src/a.rs", 3, 3, 1, 5, true⟩], none⟩
      = .ok [⟨.warning, "src/a.rs", 3, some 3, some 1, some 5, none, "unused variable"⟩] ∧
    displayAnn ⟨.warning, "src/a.rs", 3, some 3, some 1, some 5, none, "unused variable"⟩
      = "::warning file=src/a.rs,line=3,endLine=3,col=1,endColumn=5::unused variable" :=
  ⟨rfl, by decide⟩


/-- C10: the percent-encoding applies only to the message: the wire line
embeds the severity token, the file and the title verbatim, so any
character of the title (a newline, a percent, a comma) reappears unencoded
in the output, while the encoded message never contains a newline. -/
theorem claim10_only_message_encoded :
    (∀ a : Ann, ∃ q : String,
      displayAnn a = "::" ++ a.kind.serialName ++ " file=" ++ a.file ++ q) ∧
    (∀ (a : Ann) (t : String), a.title = some t →
      ∃ p : String,
        displayAnn a = p ++ (",title=" ++ (t ++ ("::" ++ encodeMessage a.message)))) ∧
    (∀ (a : Ann) (t : String), a.title = some t →
      '\n' ∈ t.data → '\n' ∈ (displayAnn a).data) ∧
    (∀ s : String, '\n' ∉ (encodeMessage s).data) := by
  have hfile : ∀ a : Ann, ∃ q : String,
      displayAnn a = "::" ++ a.kind.serialName ++ " file=" ++ a.file ++ q := by
    intro a
    refine ⟨",line=" ++ Nat.repr a.line
      ++ (match a.end_line with
          | some e => ",endLine=" ++ Nat.repr e
          | none => "")
      ++ (match a.col with
          | some c =>
            ",col=" ++ Nat.repr c
              ++ (match a.end_column with
                  | some ec => ",endColumn=" ++ Nat.repr ec
                  | none => "")
          | none => "")
      ++ (match a.title with
          | some t => ",title=" ++ t
          | none => "")
      ++ "::" ++ encodeMessage a.message, ?_⟩
    unfold displayAnn
    apply String.ext
    simp [String.data_append, List.append_assoc]
  have htitle : ∀ (a : Ann) (t : String), a.title = some t →
      ∃ p : String,
        displayAnn a = p ++ (",title=" ++ (t ++ ("::" ++ encodeMessage a.message))) := by
    intro a t h
    refine ⟨"::" ++ a.kind.serialName ++ " file=" ++ a.file ++ ",line=" ++ Nat.repr a.line
      ++ (match a.end_line with
          | some e => ",endLine=" ++ Nat.repr e
          | none => "")
      ++ (match a.col with
          | some c =>
            ",col=" ++ Nat.repr c
              ++ (match a.end_column with
                  | some ec => ",endColumn=" ++ Nat.repr ec
                  | none => "")
          | none => ""), ?_⟩
    unfold displayAnn
    rw [h]
    apply String.ext
    simp [String.data_append, List.append_assoc]
  refine ⟨hfile, htitle, ?_, newline_not_mem_encode⟩
  intro a t h hmem
  obtain ⟨p, hp⟩ := htitle a t h
  rw [hp]
  simp only [String.data_append, List.mem_append]
  tauto

/-- Witness for C10 at a concrete annotation whose title contains a newline
and a percent: the raw characters reappear in the wire line. -/
theorem claim10_only_message_encoded_witness :
    ((⟨.warning, "f.rs", 1, none, none, none, some "x\n%y", "m"⟩ : Ann).title
        = some "x\n%y") ∧
    (∃ p : String,
      displayAnn ⟨.warning, "f.rs", 1, none, none, none, some "x\n%y", "m"⟩
        = p ++ (",title=" ++ ("x\n%y" ++ ("::" ++ encodeMessage "m")))) ∧
    '\n' ∈ ("x\n%y" : String).data ∧
    '\n' ∈ (displayAnn ⟨.warning, "f.rs", 1, none, none, none, some "x\n%y", "m"⟩).data :=
  ⟨rfl,
    claim10_only_message_encoded.2.1 _ _ rfl,
    by decide,
    claim10_only_message_encoded.2.2.1 _ _ rfl (by decide)⟩

/-- C9: with the default threshold the run fails exactly when the running
maximum severity over the emitted annotations is Warning or Error; with the
allow-warnings flag it fails exactly when that maximum is Error; and a run
that emitted no annotation succeeds under both thresholds.  The third
conjunct identifies `max_annotation` with the fold of the emitted
annotations' kinds. -/
theorem claim9_exit_threshold : ∀ l : List Diagnostic,
    (∀ d ∈ l, (d.spans.find? fun sp => sp.is_primary).isSome) →
    ∃ s, runDiag l = .ok s ∧
      s.emit.maxAnn
        = ((s.emit.buf.map fun a => a.kind).foldl AnnotationKind.max .notice) ∧
      (exitFailure false s.emit.maxAnn = true ↔
        (s.emit.maxAnn = .warning ∨ s.emit.maxAnn = .error)) ∧
      (exitFailure true s.emit.maxAnn = true ↔ s.emit.maxAnn = .error) ∧
      (s.emit.buf = [] →
        exitFailure false s.emit.maxAnn = false ∧
          exitFailure true s.emit.maxAnn = false) := by
  intro l h
  obtain ⟨s, hs, he⟩ := runDiag_char h
  have hmax : s.emit.maxAnn
      = (s.emit.buf.map fun a => a.kind).foldl AnnotationKind.max .notice := by
    rw [he]
    exact foldl_emit_maxList _ initEmit initEmit_maxList
  refine ⟨s, hs, hmax, ?_, ?_, ?_⟩
  · cases s.emit.maxAnn <;> decide
  · cases s.emit.maxAnn <;> decide
  · intro hb
    have hn : s.emit.maxAnn = .notice := by
      rw [hmax, hb]
      rfl
    rw [hn]
    exact ⟨rfl, rfl⟩

/-- Witness for C9 at a concrete one-warning run. -/
theorem claim9_exit_threshold_witness :
    (∀ d ∈ ([⟨"w", .warning, [⟨"f", 1, 1, 1, 1, true⟩], none⟩] : List Diagnostic),
        (d.spans.find? fun sp => sp.is_primary).isSome) ∧
    (∃ s, runDiag [⟨"w", .warning, [⟨"f", 1, 1, 1, 1, true⟩], none⟩] = .ok s ∧
      s.emit.maxAnn
        = ((s.emit.buf.map fun a => a.kind).foldl AnnotationKind.max .notice) ∧
      (exitFailure false s.emit.maxAnn = true ↔
        (s.emit.maxAnn = .warning ∨ s.emit.maxAnn = .error)) ∧
      (exitFailure true s.emit.maxAnn = true ↔ s.emit.maxAnn = .error) ∧
      (s.emit.buf = [] →
        exitFailure false s.emit.maxAnn = false ∧
          exitFailure true s.emit.maxAnn = false)) :=
  ⟨by decide, claim9_exit_threshold _ (by decide)⟩


theorem pairFoldl_snd_true (l : List Ann) : ∀ s : EmitState,
    (l.foldl (fun p a => (emitStep p.1 a, p.2 || !emitHit p.1 a)) (s, true)).2 = true := by
  induction l with
  | nil => intro s; rfl
  | cons a l ih =>
    intro s
    rw [List.foldl_cons]
    show (l.foldl _ (emitStep s a, true || !emitHit s a)).2 = true
    rw [Bool.true_or]
    exact ih (emitStep s a)

theorem fmtFold_count (L : List FormatMismatchesSummary) : ∀ (c : Nat) (t : String),
    (L.foldl (fun q s => fmtWriteSummary q.1 q.2 s) (c, t)).1
      = c + (L.map fun s => s.lines.length).sum := by
  induction L with
  | nil => intro c t; simp
  | cons s0 L ih =>
    intro c t
    rw [List.foldl_cons]
    have h := ih (fmtWriteSummary c t s0).1 (fmtWriteSummary c t s0).2
    refine Eq.trans h ?_
    rw [show (fmtWriteSummary c t s0).1 = c + s0.lines.length from rfl,
      List.map_cons, List.sum_cons]
    omega

theorem runFmt_count (cwd : String) (ms : List FormatMismatches) :
    (runFmt cwd ms).count
      = if (processAnns initEmit (fmtIntoAnns cwd ms)).2 then
          ((ms.map (fmtSummaryOf cwd)).map fun s => s.lines.length).sum
        else 0 := by
  show (if (processAnns initEmit (fmtIntoAnns cwd ms)).2 then
      (ms.map (fmtSummaryOf cwd)).foldl (fun q s => fmtWriteSummary q.1 q.2 s) (0, "")
    else (0, "")).1 = _
  by_cases h : (processAnns initEmit (fmtIntoAnns cwd ms)).2 = true
  · rw [if_pos h, if_pos h, fmtFold_count]
    omega
  · rw [if_neg h, if_neg h]

/-- C4 (amended): feeding the same Diagnostic record on two input lines
leaves the run state of the first line unchanged — exactly one emitted line
and exactly one summary row.  In the formatter path, a Mismatch record
occurring twice in the producer array is emitted only once on the wire, but
its summary is folded once per occurrence (gating is per parsed message,
not per record), so the mismatch count doubles. -/
theorem claim4_amended_dedup_idempotence :
    (∀ d : Diagnostic, runDiag [d, d] = runDiag [d]) ∧
    (∀ d : Diagnostic, (d.spans.find? fun sp => sp.is_primary).isSome →
      ∃ s, runDiag [d] = .ok s ∧ s.emit.out.length = 1 ∧ s.counts.total = 1) ∧
    (∀ (cwd : String) (m : FormatMismatches),
      (runFmt cwd [m, m]).emit.out = (runFmt cwd [m]).emit.out ∧
      (runFmt cwd [m, m]).count = 2 * m.mismatches.length) := by
  refine ⟨?_, ?_, ?_⟩
  · intro d
    cases hf : d.spans.find? fun sp => sp.is_primary with
    | none =>
      have he := into_err hf
      have h1 : diagStep ⟨initEmit, ⟨0, 0, 0⟩, ""⟩ d = .error "Missing primary span" := by
        unfold diagStep
        rw [he]
      unfold runDiag
      rw [List.foldlM_cons, h1, List.foldlM_cons, h1]
      rfl
    | some ps =>
      have hfs : (d.spans.find? fun sp => sp.is_primary).isSome := by
        rw [hf]
        rfl
      obtain ⟨st1, h1, he1⟩ := @diagStep_ok ⟨initEmit, ⟨0, 0, 0⟩, ""⟩ d hfs
      have hall : ∀ a ∈ d.primaryAnns, emitHit st1.emit a = true := by
        intro a ha
        rw [he1]
        exact emitHit_foldl_mem _ _ _ ha
      have hp : processAnns st1.emit d.primaryAnns = (st1.emit, false) :=
        foldl_pair_noop d.primaryAnns st1.emit false hall
      have h2 : diagStep st1 d = .ok st1 := by
        unfold diagStep
        rw [into_ok hfs]
        show Except.ok (⟨(processAnns st1.emit d.primaryAnns).1,
            (if (processAnns st1.emit d.primaryAnns).2 then
                d.summarize.foldl (fun q s => diagWriteSummary q.1 q.2 s)
                  (st1.counts, st1.content)
              else (st1.counts, st1.content)).1,
            (if (processAnns st1.emit d.primaryAnns).2 then
                d.summarize.foldl (fun q s => diagWriteSummary q.1 q.2 s)
                  (st1.counts, st1.content)
              else (st1.counts, st1.content)).2⟩ : DiagState) = .ok st1
        rw [hp]
        rfl
      unfold runDiag
      rw [List.foldlM_cons, h1]
      show List.foldlM diagStep st1 [d] = _
      rw [List.foldlM_cons, h2, List.foldlM_cons, h1]
  · intro d hfs
    obtain ⟨ps, hps⟩ := Option.isSome_iff_exists.mp hfs
    have hio : d.into_annotations = .ok [d.annOf ps] := by
      unfold Diagnostic.into_annotations
      rw [hps]
    have hstep : diagStep ⟨initEmit, ⟨0, 0, 0⟩, ""⟩ d
        = .ok ⟨(processAnns initEmit [d.annOf ps]).1,
            (d.summarize.foldl (fun q s => diagWriteSummary q.1 q.2 s)
              ((⟨0, 0, 0⟩ : KindCount), "")).1,
            (d.summarize.foldl (fun q s => diagWriteSummary q.1 q.2 s)
              ((⟨0, 0, 0⟩ : KindCount), "")).2⟩ := by
      unfold diagStep
      rw [hio]
      rfl
    have hrun : runDiag [d] = .ok ⟨(processAnns initEmit [d.annOf ps]).1,
        (d.summarize.foldl (fun q s => diagWriteSummary q.1 q.2 s)
          ((⟨0, 0, 0⟩ : KindCount), "")).1,
        (d.summarize.foldl (fun q s => diagWriteSummary q.1 q.2 s)
          ((⟨0, 0, 0⟩ : KindCount), "")).2⟩ := by
      unfold runDiag
      rw [List.foldlM_cons, hstep]
      rfl
    refine ⟨_, hrun, ?_, ?_⟩
    · show ((processAnns initEmit [d.annOf ps]).1).out.length = 1
      rw [processAnns_fst]
      rfl
    · show ((d.summarize.foldl (fun q s => diagWriteSummary q.1 q.2 s)
          ((⟨0, 0, 0⟩ : KindCount), "")).1).total = 1
      unfold Diagnostic.summarize
      rw [List.foldl_cons, List.foldl_nil]
      show ((⟨0, 0, 0⟩ : KindCount).incr _).total = 1
      rw [incr_total]
      rfl
  · intro cwd m
    constructor
    · have hA : fmtIntoAnns cwd [m, m] = fmtIntoAnns cwd [m] ++ fmtIntoAnns cwd [m] := by
        unfold fmtIntoAnns
        simp
      have hemit : (runFmt cwd [m, m]).emit = (runFmt cwd [m]).emit := by
        show (processAnns initEmit (fmtIntoAnns cwd [m, m])).1
            = (processAnns initEmit (fmtIntoAnns cwd [m])).1
        rw [processAnns_fst, processAnns_fst, hA, List.foldl_append]
        exact foldl_emit_noop _ _ (fun a ha => emitHit_foldl_mem _ _ _ ha)
      rw [hemit]
    · rw [runFmt_count]
      have hsum : (([m, m].map (fmtSummaryOf cwd)).map fun s => s.lines.length).sum
          = 2 * m.mismatches.length := by
        simp [fmtSummaryOf]
        omega
      by_cases h : (processAnns initEmit (fmtIntoAnns cwd [m, m])).2 = true
      · rw [if_pos h, hsum]
      · rw [if_neg h]
        cases hm : m.mismatches with
        | nil => simp [hm]
        | cons mm mms =>
          exfalso
          apply h
          have har : ∃ a rest, fmtIntoAnns cwd [m, m] = a :: rest := by
            unfold fmtIntoAnns
            rw [List.flatMap_cons, hm]
            exact ⟨_, _, rfl⟩
          obtain ⟨a, rest, har⟩ := har
          rw [har]
          unfold processAnns
          rw [List.foldl_cons]
          show (rest.foldl _ (emitStep initEmit a, false || !emitHit initEmit a)).2 = true
          show (rest.foldl _ (emitStep initEmit a, true)).2 = true
          exact pairFoldl_snd_true rest (emitStep initEmit a)

/-- Witness for the amended C4 at a concrete diagnostic record. -/
theorem claim4_amended_dedup_idempotence_witness :
    ((⟨"w", .warning, [⟨"f", 1, 1, 1, 1, true⟩], none⟩ : Diagnostic).spans.find?
        (fun sp => sp.is_primary)).isSome ∧
    (∃ s, runDiag [⟨"w", .warning, [⟨"f", 1, 1, 1, 1, true⟩], none⟩] = .ok s ∧
      s.emit.out.length = 1 ∧ s.counts.total = 1) :=
  ⟨by decide, claim4_amended_dedup_idempotence.2.1 _ (by decide)⟩

/-- C4 is false as stated for the formatter path: the same mismatch record
twice in the producer array emits one annotation line but contributes to
the summary twice (the mismatch counter reaches 2, not 1). -/
theorem claim4_counterexample :
    (runFmt "" [⟨"f.rs", [⟨1, 1, 1, 1, "a", "b"⟩]⟩,
        ⟨"f.rs", [⟨1, 1, 1, 1, "a", "b"⟩]⟩]).emit.out.length = 1 ∧
    (runFmt "" [⟨"f.rs", [⟨1, 1, 1, 1, "a", "b"⟩]⟩,
        ⟨"f.rs", [⟨1, 1, 1, 1, "a", "b"⟩]⟩]).count = 2 :=
  ⟨by decide, by decide⟩


/-- C2 (amended): two runs over any two permutations of the same record set
agree on the number of emitted annotation lines, on the final set of dedup
keys, and on the final maximum severity (hence on the exit status) — for
both the diagnostic path and the formatter path.  The emitted line contents
and order, and the summary text, follow arrival order and are not
permutation-invariant in general. -/
theorem claim2_amended_permutation :
    (∀ l₁ l₂ : List Diagnostic, l₁.Perm l₂ →
      (∀ d ∈ l₁, (d.spans.find? fun sp => sp.is_primary).isSome) →
      ∃ s₁ s₂, runDiag l₁ = .ok s₁ ∧ runDiag l₂ = .ok s₂ ∧
        s₁.emit.out.length = s₂.emit.out.length ∧
        bufKeys s₁.emit = bufKeys s₂.emit ∧
        s₁.emit.maxAnn = s₂.emit.maxAnn) ∧
    (∀ (cwd : String) (ms₁ ms₂ : List FormatMismatches), ms₁.Perm ms₂ →
      (runFmt cwd ms₁).emit.out.length = (runFmt cwd ms₂).emit.out.length ∧
      bufKeys (runFmt cwd ms₁).emit = bufKeys (runFmt cwd ms₂).emit ∧
      (runFmt cwd ms₁).emit.maxAnn = (runFmt cwd ms₂).emit.maxAnn) := by
  constructor
  · intro l₁ l₂ hp h₁
    have h₂ : ∀ d ∈ l₂, (d.spans.find? fun sp => sp.is_primary).isSome :=
      fun d hd => h₁ d (hp.mem_iff.mpr hd)
    obtain ⟨s₁, hs₁, he₁⟩ := runDiag_char h₁
    obtain ⟨s₂, hs₂, he₂⟩ := runDiag_char h₂
    have hap : (l₁.flatMap Diagnostic.primaryAnns).Perm
        (l₂.flatMap Diagnostic.primaryAnns) := hp.flatMap_right _
    obtain ⟨hk, hlen, hmax⟩ := emitRun_perm hap
    refine ⟨s₁, s₂, hs₁, hs₂, ?_, ?_, ?_⟩
    · rw [he₁, he₂]
      exact hlen
    · rw [he₁, he₂]
      exact hk
    · rw [he₁, he₂]
      exact hmax
  · intro cwd ms₁ ms₂ hp
    have he : ∀ ms : List FormatMismatches,
        (runFmt cwd ms).emit = (fmtIntoAnns cwd ms).foldl emitStep initEmit := by
      intro ms
      show (processAnns initEmit (fmtIntoAnns cwd ms)).1 = _
      exact processAnns_fst _ _
    have hap : (fmtIntoAnns cwd ms₁).Perm (fmtIntoAnns cwd ms₂) := by
      unfold fmtIntoAnns
      exact hp.flatMap_right _
    obtain ⟨hk, hlen, hmax⟩ := emitRun_perm hap
    refine ⟨?_, ?_, ?_⟩
    · rw [he, he]
      exact hlen
    · rw [he, he]
      exact hk
    · rw [he, he]
      exact hmax

/-- Witness for the amended C2 at a concrete pair of swapped runs (two
diagnostic records and a two-element formatter array). -/
theorem claim2_amended_permutation_witness :
    (([⟨"a", .warning, [⟨"f.rs", 1, 1, 1, 1, true⟩], none⟩,
        ⟨"b", .error, [⟨"g.rs", 2, 2, 1, 1, true⟩], none⟩] : List Diagnostic).Perm
      [⟨"b", .error, [⟨"g.rs", 2, 2, 1, 1, true⟩], none⟩,
        ⟨"a", .warning, [⟨"f.rs", 1, 1, 1, 1, true⟩], none⟩]) ∧
    (∀ d ∈ ([⟨"a", .warning, [⟨"f.rs", 1, 1, 1, 1, true⟩], none⟩,
        ⟨"b", .error, [⟨"g.rs", 2, 2, 1, 1, true⟩], none⟩] : List Diagnostic),
      (d.spans.find? fun sp => sp.is_primary).isSome) ∧
    (∃ s₁ s₂,
      runDiag [⟨"a", .warning, [⟨"f.rs", 1, 1, 1, 1, true⟩], none⟩,
          ⟨"b", .error, [⟨"g.rs", 2, 2, 1, 1, true⟩], none⟩] = .ok s₁ ∧
      runDiag [⟨"b", .error, [⟨"g.rs", 2, 2, 1, 1, true⟩], none⟩,
          ⟨"a", .warning, [⟨"f.rs", 1, 1, 1, 1, true⟩], none⟩] = .ok s₂ ∧
      s₁.emit.out.length = s₂.emit.out.length ∧
      bufKeys s₁.emit = bufKeys s₂.emit ∧
      s₁.emit.maxAnn = s₂.emit.maxAnn) ∧
    (([⟨"f.rs", [⟨1, 1, 1, 1, "x", "y"⟩]⟩,
        ⟨"g.rs", [⟨2, 2, 2, 2, "u", "v"⟩]⟩] : List FormatMismatches).Perm
      [⟨"g.rs", [⟨2, 2, 2, 2, "u", "v"⟩]⟩, ⟨"f.rs", [⟨1, 1, 1, 1, "x", "y"⟩]⟩]) ∧
    ((runFmt "" [⟨"f.rs", [⟨1, 1, 1, 1, "x", "y"⟩]⟩,
        ⟨"g.rs", [⟨2, 2, 2, 2, "u", "v"⟩]⟩]).emit.out.length
      = (runFmt "" [⟨"g.rs", [⟨2, 2, 2, 2, "u", "v"⟩]⟩,
        ⟨"f.rs", [⟨1, 1, 1, 1, "x", "y"⟩]⟩]).emit.out.length ∧
    bufKeys (runFmt "" [⟨"f.rs", [⟨1, 1, 1, 1, "x", "y"⟩]⟩,
        ⟨"g.rs", [⟨2, 2, 2, 2, "u", "v"⟩]⟩]).emit
      = bufKeys (runFmt "" [⟨"g.rs", [⟨2, 2, 2, 2, "u", "v"⟩]⟩,
        ⟨"f.rs", [⟨1, 1, 1, 1, "x", "y"⟩]⟩]).emit ∧
    (runFmt "" [⟨"f.rs", [⟨1, 1, 1, 1, "x", "y"⟩]⟩,
        ⟨"g.rs", [⟨2, 2, 2, 2, "u", "v"⟩]⟩]).emit.maxAnn
      = (runFmt "" [⟨"g.rs", [⟨2, 2, 2, 2, "u", "v"⟩]⟩,
        ⟨"f.rs", [⟨1, 1, 1, 1, "x", "y"⟩]⟩]).emit.maxAnn) :=
  ⟨by decide, by decide,
    claim2_amended_permutation.1 _ _ (by decide) (by decide),
    by decide,
    claim2_amended_permutation.2 "" _ _ (by decide)⟩

/-- C2 is false as stated: with two records that differ only in their
message, the two arrival orders emit different annotation lines and build
different summary text (the dedup comparison ignores the message, so the
first-arriving record wins and the second is dropped). -/
theorem claim2_counterexample :
    (runDiag [⟨"a", .warning, [⟨"f.rs", 1, 1, 1, 1, true⟩], none⟩,
        ⟨"b", .warning, [⟨"f.rs", 1, 1, 1, 1, true⟩], none⟩]).toOption.map
        (fun s => s.emit.out)
      ≠ (runDiag [⟨"b", .warning, [⟨"f.rs", 1, 1, 1, 1, true⟩], none⟩,
        ⟨"a", .warning, [⟨"f.rs", 1, 1, 1, 1, true⟩], none⟩]).toOption.map
        (fun s => s.emit.out) ∧
    (runDiag [⟨"a", .warning, [⟨"f.rs", 1, 1, 1, 1, true⟩], none⟩,
        ⟨"b", .warning, [⟨"f.rs", 1, 1, 1, 1, true⟩], none⟩]).toOption.map
        (fun s => s.content)
      ≠ (runDiag [⟨"b", .warning, [⟨"f.rs", 1, 1, 1, 1, true⟩], none⟩,
        ⟨"a", .warning, [⟨"f.rs", 1, 1, 1, 1, true⟩], none⟩]).toOption.map
        (fun s => s.content) :=
  ⟨by decide, by decide⟩

end Ghannotate
